/-
  Verification development for the goflash/validator repository.

  The repository is a Go package.  We give a shallow embedding of the parts of
  `validate/validate.go` and `validator_i18n.go` that the verified properties
  talk about, and prove the properties over that embedding.

  Modelling conventions:
  * A Go string is modelled as its list of runes, `Str := List Char`.
    The functions below only ever slice a string at boundaries produced by
    substring search, so rune-level slicing agrees with Go's byte-level
    slicing on every input.
  * A Go `map[string]string` value is modelled as an association list with
    distinct keys (`AssocMap`); `mapInsert` overwrites an existing binding
    exactly as a Go map assignment does.  Where the distinction between a
    `nil` map and an empty map is observable, a map is `Option AssocMap`
    with `none` playing the role of `nil`; the functions of the package
    always start from the non-nil literal `map[string]string{}`.
  * The package-level mutable variable `messageFunc` is threaded explicitly
    as a `GlobalState` argument; the `...S` variants return the state so
    that frame properties can be stated.
  * `validator.FieldError`, `ctx.FieldErrors` and `context.Context` are
    external collaborators; they are modelled by their observable data
    (field/tag/param strings, a list of field/message pairs plus an
    aggregated message, and a chain of key/value pairs).
-/
import Mathlib

set_option maxRecDepth 10000

namespace GoValidator

/-- Characters are Go runes; a Go string is its list of runes. -/
abbrev Str := List Char

/-- Single-quote character (U+0027), written numerically. -/
def sq : Char := Char.ofNat 39

/-- Double-quote character (U+0022), written numerically. -/
def dq : Char := Char.ofNat 34

/-- Whitespace test of Go `unicode.IsSpace`: the Unicode White_Space code
points (TAB, LF, VT, FF, CR, SP, NEL, NBSP and the higher space runes). -/
def isGoSpace (c : Char) : Bool :=
  decide (c.toNat = 9 ∨ c.toNat = 10 ∨ c.toNat = 11 ∨ c.toNat = 12 ∨ c.toNat = 13 ∨
    c.toNat = 32 ∨ c.toNat = 133 ∨ c.toNat = 160 ∨ c.toNat = 5760 ∨
    (8192 ≤ c.toNat ∧ c.toNat ≤ 8202) ∨ c.toNat = 8232 ∨ c.toNat = 8233 ∨
    c.toNat = 8239 ∨ c.toNat = 8287 ∨ c.toNat = 12288)

/-- Go `strings.TrimSpace`: drop leading and trailing white space. -/
def trimSpace (s : Str) : Str :=
  ((s.dropWhile isGoSpace).reverse.dropWhile isGoSpace).reverse

/-- Go `strings.Split(s, sep)` for a one-character separator: the list of
(possibly empty) chunks between occurrences of `sep`. -/
def splitOnChar : Str → Char → List Str
  | [], _ => [[]]
  | c :: t, sep =>
    if c = sep then [] :: splitOnChar t sep
    else
      match splitOnChar t sep with
      | [] => [[c]]
      | h :: r => (c :: h) :: r

/-- Go `strings.HasPrefix`. -/
def goStartsWith (s pre : Str) : Bool := pre.isPrefixOf s

/-- Go `strings.Index`: position of the first occurrence of `sub` in `s`,
`none` standing for Go's `-1`. -/
def goIndex (s sub : Str) : Option Nat :=
  if sub.isPrefixOf s then some 0
  else
    match s with
    | [] => none
    | _ :: t => (goIndex t sub).map (· + 1)

/-- Membership of a rune in a cutset string. -/
def inCutset (cut : Str) (c : Char) : Bool := cut.contains c

/-- Go `strings.Trim`: drop leading and trailing runes contained in `cut`. -/
def goTrimC (s cut : Str) : Str :=
  (((s.dropWhile (inCutset cut)).reverse).dropWhile (inCutset cut)).reverse

/-- Go `strings.TrimRight`: drop trailing runes contained in `cut`. -/
def goTrimRightC (s cut : Str) : Str :=
  ((s.reverse).dropWhile (inCutset cut)).reverse

/-- Accumulator-passing helper for `goFields`: `acc` is the word being read. -/
def fieldsAux : Str → Str → List Str
  | [], acc => if acc = [] then [] else [acc]
  | c :: t, acc =>
    if isGoSpace c then
      if acc = [] then fieldsAux t [] else acc :: fieldsAux t []
    else fieldsAux t (acc ++ [c])

/-- Go `strings.Fields`: the maximal runs of non-space runes. -/
def goFields (s : Str) : List Str := fieldsAux s []

/-- A Go `map[string]string` with its insertion order: keys are kept
distinct, assignment overwrites in place. -/
abbrev AssocMap := List (Str × Str)

/-- Go map assignment `m[k] = v`: overwrite the binding of `k`, or append it. -/
def mapInsert : AssocMap → Str → Str → AssocMap
  | [], k, v => [(k, v)]
  | (k1, v1) :: t, k, v =>
    if k1 = k then (k1, v) :: t else (k1, v1) :: mapInsert t k v

/-- Go map read `m[k]` (with presence bit): the first binding of `k`. -/
def mapLookup : AssocMap → Str → Option Str
  | [], _ => none
  | (k1, v1) :: t, k => if k1 = k then some v1 else mapLookup t k

/-- The literal `"*"` tested by `parseStructuredErrors`. -/
def starStr : Str := ['*']

/-- The literal `"'"` used for field extraction. -/
def singleQuoteStr : Str := [sq]

/-- The literal `"expected type '"` of `parseFieldTypeError`. -/
def expectedTypePhrase : Str := "expected type ".toList ++ [sq]

/-- The literal `"got unconvertible type '"` of `parseFieldTypeError`. -/
def gotUnconvPhrase : Str := "got unconvertible type ".toList ++ [sq]

/-- The literal `"got "` of `parseFieldTypeError`. -/
def gotPhrase : Str := "got ".toList

/-- The literal `"has invalid keys:"` of `parseInvalidKeys`. -/
def invalidKeysPhrase : Str := "has invalid keys:".toList

/-- The message `"unexpected"` written for invalid keys. -/
def unexpectedMsg : Str := "unexpected".toList

/-- The message `"invalid type"` written when a type is missing. -/
def invalidTypeMsg : Str := "invalid type".toList

/-- The result map of `parseFieldTypeError` (`matches` in the source); a key
that was never assigned reads as the empty string, as a Go map does. -/
structure TypeMatch where
  field : Str
  expected : Str
  got : Str
deriving DecidableEq, Repr

/-- Embedding of `parseFieldTypeError` (validate.go lines 282-327): extract
the field name between the first pair of single quotes, the expected type
after `expected type '`, and the got type after `got unconvertible type '`
or, failing that, the first whitespace-delimited token after `got `, trimmed
of quotes and commas.  Returns `none` unless a non-empty field name was
found. -/
def parseFieldTypeError (line : Str) : Option TypeMatch :=
  let fieldName :=
    match goIndex line singleQuoteStr with
    | some start =>
      match goIndex (line.drop (start + 1)) singleQuoteStr with
      | some e => (line.drop (start + 1)).take e
      | none => []
    | none => []
  let expectedType :=
    match goIndex line expectedTypePhrase with
    | some idx =>
      let start := idx + expectedTypePhrase.length
      match goIndex (line.drop start) singleQuoteStr with
      | some e => (line.drop start).take e
      | none => []
    | none => []
  let gotType :=
    match goIndex line gotUnconvPhrase with
    | some idx =>
      let start := idx + gotUnconvPhrase.length
      match goIndex (line.drop start) singleQuoteStr with
      | some e => (line.drop start).take e
      | none => []
    | none =>
      match goIndex line gotPhrase with
      | some idx =>
        match goFields (line.drop (idx + gotPhrase.length)) with
        | p :: _ => goTrimC p [sq, ',']
        | [] => []
      | none => []
  if fieldName ≠ [] then some ⟨fieldName, expectedType, gotType⟩ else none

/-- The human message built by `parseStructuredErrors` for a type-mismatch
match: `expected E but got G` when both types are non-empty, else
`invalid type` (validate.go lines 252-259). -/
def typeMsg (m : TypeMatch) : Str :=
  if m.expected ≠ [] ∧ m.got ≠ [] then
    "expected ".toList ++ m.expected ++ " but got ".toList ++ m.got
  else invalidTypeMsg

/-- Embedding of `parseInvalidKeys` (validate.go lines 331-354): the text
after `has invalid keys:` is split on commas; each part is trimmed of
spaces, then of surrounding single and double quotes, then of trailing
`)`, space and `.` runes; empty results are skipped. -/
def parseInvalidKeys (line : Str) : List Str :=
  match goIndex line invalidKeysPhrase with
  | none => []
  | some idx =>
    let rest := line.drop (idx + invalidKeysPhrase.length)
    (splitOnChar rest ',').foldl
      (fun ks p =>
        let k1 := trimSpace p
        let k2 := goTrimC k1 [sq, dq]
        let k3 := goTrimRightC k2 [')', ' ', '.']
        if k3 ≠ [] then ks ++ [k3] else ks) []

/-- One step of the invalid-keys loop of `parseStructuredErrors` (lines
267-274): write `unexpected` for `k` unless `k` already has an entry. -/
def ikStep (r : AssocMap) (k : Str) : AssocMap :=
  if (mapLookup r k).isSome then r else mapInsert r k unexpectedMsg

/-- The body of the line loop of `parseStructuredErrors` (lines 240-276),
applied to an already trimmed line: skip lines that are empty or do not
start with `*`; otherwise record a type-mismatch entry when
`parseFieldTypeError` matches, and the invalid keys otherwise. -/
def processLine (r : AssocMap) (line : Str) : AssocMap :=
  if line = [] ∨ goStartsWith line starStr = false then r
  else
    match parseFieldTypeError line with
    | some m => if m.field ≠ [] then mapInsert r m.field (typeMsg m) else r
    | none => (parseInvalidKeys line).foldl ikStep r

/-- Embedding of `parseStructuredErrors` (validate.go lines 235-279): split
the message on newlines, trim each line, and process the lines in order
starting from the empty map. -/
def parseStructuredErrors (errMsg : Str) : AssocMap :=
  (splitOnChar errMsg '\n').foldl (fun r rawLine => processLine r (trimSpace rawLine)) []

/-- The trimmed lines of an input, in order: what the loop of
`parseStructuredErrors` iterates over. -/
def linesOf (s : Str) : List Str := (splitOnChar s '\n').map trimSpace

theorem parseStructuredErrors_eq_foldl (s : Str) :
    parseStructuredErrors s = (linesOf s).foldl processLine [] := by
  unfold parseStructuredErrors linesOf
  rw [List.foldl_map]

/-- Observable data of a `validator.FieldError`: the (tag-name) field, the
struct field name, the failed tag and its parameter. -/
structure FieldError where
  field : Str
  structField : Str
  tag : Str
  param : Str
deriving DecidableEq, Repr

/-- A message function `func(validator.FieldError) string`. -/
abbrev MsgFn := FieldError → Str

/-- The package-level variable `messageFunc` (validate.go line 21): `none`
models the nil function. -/
abbrev GlobalState := Option MsgFn

/-- Embedding of `defaultMessage` (validate.go lines 356-418): the switch
over `fe.Tag()`. -/
def defaultMessage (fe : FieldError) : Str :=
  if fe.tag = "required".toList then "is required".toList
  else if fe.tag = "min".toList then "must be at least ".toList ++ fe.param
  else if fe.tag = "max".toList then "must be at most ".toList ++ fe.param
  else if fe.tag = "len".toList then "must be length ".toList ++ fe.param
  else if fe.tag = "email".toList then "must be a valid email".toList
  else if fe.tag = "oneof".toList then "must be one of ".toList ++ fe.param
  else if fe.tag = "gte".toList then "must be greater than or equal to ".toList ++ fe.param
  else if fe.tag = "lte".toList then "must be less than or equal to ".toList ++ fe.param
  else if fe.tag = "url".toList then "must be a valid URL".toList
  else if fe.tag = "uuid".toList then "must be a valid UUID".toList
  else if fe.tag = "alpha".toList then "must contain only letters".toList
  else if fe.tag = "alphanum".toList then "must contain only letters and numbers".toList
  else if fe.tag = "numeric".toList then "must contain only numbers".toList
  else if fe.tag = "contains".toList then "must contain ".toList ++ fe.param
  else if fe.tag = "excludes".toList then "must not contain ".toList ++ fe.param
  else if fe.tag = "startswith".toList then "must start with ".toList ++ fe.param
  else if fe.tag = "endswith".toList then "must end with ".toList ++ fe.param
  else if fe.tag = "base64".toList then "must be a valid base64 string".toList
  else if fe.tag = "json".toList then "must be valid JSON".toList
  else if fe.tag = "ip".toList then "must be a valid IP address".toList
  else if fe.tag = "cidr".toList then "must be a valid CIDR notation".toList
  else if fe.tag = "ascii".toList then "must contain only ASCII characters".toList
  else if fe.tag = "printascii".toList then "must contain only printable ASCII characters".toList
  else if fe.tag = "multibyte".toList then "must contain multibyte characters".toList
  else if fe.tag = "iscolor".toList then "must be a valid color".toList
  else if fe.tag = "isbn".toList then "must be a valid ISBN".toList
  else if fe.tag = "isbn10".toList then "must be a valid ISBN-10".toList
  else if fe.tag = "isbn13".toList then "must be a valid ISBN-13".toList
  else "failed ".toList ++ fe.tag

/-- The tags given a dedicated case by `defaultMessage`. -/
def knownTags : List Str :=
  ["required".toList, "min".toList, "max".toList, "len".toList, "email".toList,
   "oneof".toList, "gte".toList, "lte".toList, "url".toList, "uuid".toList,
   "alpha".toList, "alphanum".toList, "numeric".toList, "contains".toList,
   "excludes".toList, "startswith".toList, "endswith".toList, "base64".toList,
   "json".toList, "ip".toList, "cidr".toList, "ascii".toList, "printascii".toList,
   "multibyte".toList, "iscolor".toList, "isbn".toList, "isbn10".toList,
   "isbn13".toList]

/-- The second half of `humanMessageWith` (validate.go lines 194-199): use
the global `messageFunc` when it is set and yields a non-empty message,
else `defaultMessage`. -/
def globalFallback (g : GlobalState) (fe : FieldError) : Str :=
  match g with
  | some gf => if gf fe ≠ [] then gf fe else defaultMessage fe
  | none => defaultMessage fe

/-- Embedding of `humanMessageWith` (validate.go lines 188-200); the global
variable `messageFunc` is the explicit first argument. -/
def humanMessageWith (g : GlobalState) (fe : FieldError) (fn : Option MsgFn) : Str :=
  match fn with
  | some f => if f fe ≠ [] then f fe else globalFallback g fe
  | none => globalFallback g fe

/-- Context keys: the package's unexported `ctxKeyMsgFunc{}` plus arbitrary
foreign keys. -/
inductive CtxKey where
  | msgFuncKey
  | otherKey (n : Nat)
deriving DecidableEq

/-- Context values: a stored message function (possibly the nil function)
or an arbitrary foreign value. -/
inductive CtxVal where
  | msgFuncVal (f : Option MsgFn)
  | otherVal (n : Nat)

/-- A `context.Context`: the background context, or a parent extended by a
key/value pair via `context.WithValue`. -/
inductive Context where
  | background
  | withValue (k : CtxKey) (v : CtxVal) (parent : Context)

/-- `Context.Value`: the value of the most recently attached entry for a key. -/
def ctxValue : Context → CtxKey → Option CtxVal
  | Context.background, _ => none
  | Context.withValue k v p, q => if k = q then some v else ctxValue p q

/-- Embedding of `WithMessageFunc` (validate.go lines 38-40): attach `fn`
under `ctxKeyMsgFunc{}`. -/
def WithMessageFunc (c : Context) (fn : Option MsgFn) : Context :=
  Context.withValue CtxKey.msgFuncKey (CtxVal.msgFuncVal fn) c

/-- Embedding of `MessageFuncFromContext` (validate.go lines 43-51): `none`
for a nil context; otherwise the stored function when the value under
`ctxKeyMsgFunc{}` type-asserts to a message function, and `none` otherwise. -/
def MessageFuncFromContext (c : Option Context) : Option MsgFn :=
  match c with
  | none => none
  | some c0 =>
    match ctxValue c0 CtxKey.msgFuncKey with
    | some (CtxVal.msgFuncVal f) => f
    | _ => none

/-- Embedding of `normalizeFieldKey`-accepted runes (validate.go line 224):
letters, digits, dot, dash, underscore. -/
def allowedKeyChar (c : Char) : Bool :=
  decide (c = '.' ∨ c = '-' ∨ c = '_' ∨ ('0' ≤ c ∧ c ≤ '9') ∨
    ('A' ≤ c ∧ c ≤ 'Z') ∨ ('a' ≤ c ∧ c ≤ 'z'))

/-- Go `strings.ContainsAny(s, cutset)`. -/
def containsAnyOf (s cutset : Str) : Bool := s.any (fun c => inCutset cutset c)

/-- The cutset `"\r\n"` of `normalizeFieldKey`. -/
def crlfStr : Str := ['\r', '\n']

/-- Embedding of `normalizeFieldKey` (validate.go lines 205-229). -/
def normalizeFieldKey (s : Str) : Str :=
  if s = [] then []
  else if containsAnyOf s crlfStr then []
  else
    let t := trimSpace s
    if t = [] then []
    else if t.all allowedKeyChar then t else []

/-- One listed error of a flash `ctx.FieldErrors` value: its `Field()` and
`Message()` observations. -/
structure CtxFieldError where
  field : Str
  message : Str
deriving DecidableEq, Repr

/-- A flash `ctx.FieldErrors` value, modelled by its observations: the list
returned by `All()` and the aggregated `Error()` string. -/
structure CtxFieldErrors where
  items : List CtxFieldError
  errMsg : Str
deriving DecidableEq, Repr

/-- The body of the `fe.All()` loop of `handleCtxFieldErrors` (validate.go
lines 119-125). -/
def ctxItemStep (r : AssocMap) (e : CtxFieldError) : AssocMap :=
  let f := normalizeFieldKey e.field
  if f = [] then r else mapInsert r f e.message

/-- The `fe.All()` loop of `handleCtxFieldErrors`. -/
def ctxItemsMap (items : List CtxFieldError) (res : AssocMap) : AssocMap :=
  items.foldl ctxItemStep res

/-- The merge step of `handleCtxFieldErrors` (lines 127-131): an extra entry
is added only when its key is not yet present. -/
def mergeStep (r : AssocMap) (kv : Str × Str) : AssocMap :=
  if (mapLookup r kv.1).isSome then r else mapInsert r kv.1 kv.2

/-- Embedding of `handleCtxFieldErrors` (validate.go lines 114-134): map the
listed field errors through `normalizeFieldKey`, then merge the entries
parsed from the aggregated `Error()` message without overwriting.  (The Go
code guards the merge with `len(extras) > 0`; merging an empty map is the
same.) -/
def handleCtxFieldErrors (fe : CtxFieldErrors) (res : AssocMap) : AssocMap :=
  (parseStructuredErrors fe.errMsg).foldl mergeStep (ctxItemsMap fe.items res)

/-- The key under which a field error is recorded (validate.go lines
143-146): `fe.Field()`, or `fe.StructField()` when the former is empty. -/
def feKey (fe : FieldError) : Str :=
  if fe.field = [] then fe.structField else fe.field

/-- The body of the loop of `handleValidationErrors` (lines 142-148). -/
def hveStep (g : GlobalState) (fn : Option MsgFn) (r : AssocMap) (fe : FieldError) : AssocMap :=
  mapInsert r (feKey fe) (humanMessageWith g fe fn)

/-- Embedding of `handleValidationErrors` (validate.go lines 137-150). -/
def handleValidationErrors (g : GlobalState) (l : List FieldError) (fn : Option MsgFn)
    (res : AssocMap) : AssocMap :=
  l.foldl (hveStep g fn) res

/-- Embedding of `handleDirectFieldErrors` (validate.go lines 153-162):
copy this package's `FieldErrors` map into the result. -/
def handleDirectFieldErrors (m : AssocMap) (res : AssocMap) : AssocMap :=
  m.foldl (fun r kv => mapInsert r kv.1 kv.2) res

/-- Embedding of `handleStructuredErrorMessage` (validate.go lines 165-174):
the handled flag together with the updated map. -/
def handleStructuredErrorMessage (errMsg : Str) (res : AssocMap) : Bool × AssocMap :=
  let fieldErrors := parseStructuredErrors errMsg
  if fieldErrors = [] then (false, res)
  else (true, fieldErrors.foldl (fun r kv => mapInsert r kv.1 kv.2) res)

/-- The dynamic type of a non-nil Go `error` passed to `ToFieldErrorsWith`:
one of the three recognised types, or any other error observed through its
`Error()` string. -/
inductive GoError where
  | ctxFieldErrors (fe : CtxFieldErrors)
  | validationErrors (l : List FieldError)
  | fieldErrors (m : AssocMap)
  | generic (msg : Str)

/-- A Go `map[string]string` result where nil-ness is observable: `none` is
the nil map. -/
abbrev GoStrMap := Option AssocMap

/-- The key `"_error"` of the final fallback. -/
def errorKey : Str := "_error".toList

/-- Embedding of `ToFieldErrorsWith` (validate.go lines 88-111).  The result
is always a non-nil map (`some _`): the function starts from the literal
`map[string]string{}`. -/
def ToFieldErrorsWith (g : GlobalState) (err : Option GoError) (fn : Option MsgFn) : GoStrMap :=
  match err with
  | none => some []
  | some (GoError.ctxFieldErrors fe) => some (handleCtxFieldErrors fe [])
  | some (GoError.validationErrors l) => some (handleValidationErrors g l fn [])
  | some (GoError.fieldErrors m) => some (handleDirectFieldErrors m [])
  | some (GoError.generic msg) =>
    let hr := handleStructuredErrorMessage msg []
    if hr.1 then some hr.2
    else some (mapInsert [] errorKey msg)

/-- Embedding of `ToFieldErrors` (validate.go line 83): pass the global
`messageFunc` as the per-call function. -/
def ToFieldErrors (g : GlobalState) (err : Option GoError) : GoStrMap :=
  ToFieldErrorsWith g err g

/-- Embedding of `ToFieldErrorsWithContext` (validate.go lines 179-181). -/
def ToFieldErrorsWithContext (g : GlobalState) (c : Option Context) (err : Option GoError) :
    GoStrMap :=
  ToFieldErrorsWith g err (MessageFuncFromContext c)

/-- ASCII lowering, the effect of Go `strings.ToLower` on the ASCII runes
used throughout (non-letters are unchanged). -/
def lowerChar (c : Char) : Char :=
  if 'A' ≤ c ∧ c ≤ 'Z' then Char.ofNat (c.toNat + 32) else c

/-- Go `strings.ToLower`, rune by rune. -/
def goToLower (s : Str) : Str := s.map lowerChar

/-- Observable data of a flash request context `flash.Ctx`: the `:lang`
route parameter and the request context returned by `c.Context()`. -/
structure FlashCtx where
  paramLang : Str
  reqCtx : Context

/-- Embedding of `ValidatorI18nConfig` (validator_i18n.go lines 15-29). -/
structure I18nConfig where
  DefaultLocale : Str
  LocaleFromCtx : Option (FlashCtx → Str)
  MessageFuncFor : Option (Str → Option MsgFn)
  SetGlobal : Bool

/-- The default-locale normalisation of the middleware constructor
(validator_i18n.go lines 38-40): an empty `DefaultLocale` becomes `en`. -/
def normDefaultLocale (d : Str) : Str := if d = [] then "en".toList else d

/-- Embedding of the per-request body of the `ValidatorI18n` middleware
(validator_i18n.go lines 47-71), as the request context it hands to `next`:
with no `MessageFuncFor` the middleware is a no-op; otherwise the locale is
resolved, a message function looked up (falling back to the default locale
when the lookup is nil and the locale differs), and attached to the request
context when non-nil. -/
def ValidatorI18nRequestContext (cfg : I18nConfig) (c : FlashCtx) : Context :=
  match cfg.MessageFuncFor with
  | none => c.reqCtx
  | some F =>
    let dflt := normDefaultLocale cfg.DefaultLocale
    let locale :=
      match cfg.LocaleFromCtx with
      | some lf => if lf c ≠ [] then goToLower (lf c) else dflt
      | none => if c.paramLang ≠ [] then goToLower c.paramLang else dflt
    let mf := F locale
    let mf2 := if mf.isNone ∧ locale ≠ dflt then F dflt else mf
    match mf2 with
    | some f => WithMessageFunc c.reqCtx (some f)
    | none => c.reqCtx

/-- Embedding of `SetMessageFunc` (validate.go line 31) as a state
transformer on the package-level `messageFunc`. -/
def SetMessageFuncS (g : GlobalState) (fn : Option MsgFn) : GlobalState := fn

/-- State effect of `ToFieldErrorsWith`: the body (validate.go lines 88-111)
reads but never assigns `messageFunc`, so the state component is the input
state. -/
def ToFieldErrorsWithS (g : GlobalState) (err : Option GoError) (fn : Option MsgFn) :
    GoStrMap × GlobalState :=
  (ToFieldErrorsWith g err fn, g)

/-- State effect of `ToFieldErrors` (validate.go line 83). -/
def ToFieldErrorsS (g : GlobalState) (err : Option GoError) : GoStrMap × GlobalState :=
  (ToFieldErrors g err, g)

/-- State effect of `ToFieldErrorsWithContext` (validate.go lines 179-181). -/
def ToFieldErrorsWithContextS (g : GlobalState) (c : Option Context) (err : Option GoError) :
    GoStrMap × GlobalState :=
  (ToFieldErrorsWithContext g c err, g)

/-- State effect of the `ValidatorI18n` constructor (validator_i18n.go lines
33-45): with a `MessageFuncFor` configured, when `SetGlobal` is set and the
function for the (normalised) default locale is non-nil, `SetMessageFunc`
is called with it; in every other case the state is untouched. -/
def ValidatorI18nSetupState (g : GlobalState) (cfg : I18nConfig) : GlobalState :=
  match cfg.MessageFuncFor with
  | none => g
  | some F =>
    if cfg.SetGlobal then
      match F (normDefaultLocale cfg.DefaultLocale) with
      | some mf => SetMessageFuncS g (some mf)
      | none => g
    else g

/-- State effect of one request through the `ValidatorI18n` middleware
(validator_i18n.go lines 47-71): the handler body contains no assignment to
`messageFunc`, so the state is returned unchanged. -/
def ValidatorI18nHandlerState (g : GlobalState) (cfg : I18nConfig) (c : FlashCtx) : GlobalState :=
  g

/-! ### Association-map lemmas -/

theorem mapLookup_mapInsert (r : AssocMap) (k v k2 : Str) :
    mapLookup (mapInsert r k v) k2 = if k2 = k then some v else mapLookup r k2 := by
  induction r with
  | nil =>
    simp only [mapInsert, mapLookup]
    by_cases h : k = k2
    · subst h; simp
    · rw [if_neg h, if_neg (fun hh : k2 = k => h hh.symm)]
  | cons kv t ih =>
    obtain ⟨k1, v1⟩ := kv
    simp only [mapInsert]
    by_cases h1 : k1 = k
    · subst h1
      simp only [if_pos rfl, mapLookup]
      by_cases h2 : k1 = k2
      · subst h2; simp
      · rw [if_neg h2, if_neg (fun hh : k2 = k1 => h2 hh.symm), if_neg h2]
    · rw [if_neg h1]
      simp only [mapLookup, ih]
      by_cases h2 : k1 = k2
      · subst h2
        rw [if_pos rfl, if_neg (fun hh : k1 = k => h1 hh), if_pos rfl]
      · rw [if_neg h2]
        by_cases h3 : k2 = k
        · rw [if_pos h3, if_pos h3]
        · rw [if_neg h3, if_neg h3, if_neg h2]

theorem mem_keys_mapInsert (r : AssocMap) (k v x : Str) :
    x ∈ (mapInsert r k v).map Prod.fst ↔ x ∈ r.map Prod.fst ∨ x = k := by
  induction r with
  | nil => simp [mapInsert]
  | cons kv t ih =>
    obtain ⟨k1, v1⟩ := kv
    by_cases h1 : k1 = k
    · subst h1
      have he : mapInsert ((k1, v1) :: t) k1 v = (k1, v) :: t := by simp [mapInsert]
      rw [he]
      simp only [List.map_cons, List.mem_cons]
      tauto
    · simp only [mapInsert]
      rw [if_neg h1]
      simp only [List.map_cons, List.mem_cons, ih]
      tauto

theorem nodupKeys_mapInsert (r : AssocMap) (k v : Str)
    (h : (r.map Prod.fst).Nodup) : ((mapInsert r k v).map Prod.fst).Nodup := by
  induction r with
  | nil => simp [mapInsert]
  | cons kv t ih =>
    obtain ⟨k1, v1⟩ := kv
    simp only [List.map_cons, List.nodup_cons] at h
    by_cases h1 : k1 = k
    · subst h1
      have he : mapInsert ((k1, v1) :: t) k1 v = (k1, v) :: t := by simp [mapInsert]
      rw [he]
      simp only [List.map_cons, List.nodup_cons]
      exact h
    · simp only [mapInsert]
      rw [if_neg h1]
      simp only [List.map_cons, List.nodup_cons]
      refine ⟨fun hmem => ?_, ih h.2⟩
      rcases (mem_keys_mapInsert t k v k1).mp hmem with hh | hh
      · exact h.1 hh
      · exact h1 hh

/-! ### Line-level lemmas about `parseStructuredErrors` -/

/-- The entry (if any) that the loop of `parseStructuredErrors` writes for
key `f` when it processes the trimmed line `line` as a type mismatch. -/
def typeEntryFor (line f : Str) : Option Str :=
  if line = [] ∨ goStartsWith line starStr = false then none
  else
    match parseFieldTypeError line with
    | some m => if m.field ≠ [] ∧ m.field = f then some (typeMsg m) else none
    | none => none

/-- The entry written by the last line of `l` that yields a type-mismatch
entry for `f` (later lines take precedence). -/
def lastTypeEntryIn (l : List Str) (f : Str) : Option Str :=
  match l with
  | [] => none
  | p :: t =>
    match lastTypeEntryIn t f with
    | some m => some m
    | none => typeEntryFor p f

theorem parseFieldTypeError_field_ne {line : Str} {m : TypeMatch}
    (h : parseFieldTypeError line = some m) : m.field ≠ [] := by
  simp only [parseFieldTypeError] at h
  split at h
  · rename_i hcond
    cases h
    exact hcond
  · exact absurd h (by simp)

theorem processLine_typeEntry (r : AssocMap) (line k msg : Str)
    (h : typeEntryFor line k = some msg) :
    mapLookup (processLine r line) k = some msg := by
  unfold typeEntryFor at h
  split at h
  · exact absurd h (by simp)
  · rename_i hcond
    unfold processLine
    rw [if_neg hcond]
    cases hp : parseFieldTypeError line with
    | none => rw [hp] at h; exact absurd h (by simp)
    | some m =>
      rw [hp] at h
      simp only at h
      split at h
      · rename_i hf
        cases h
        simp only [if_pos hf.1]
        rw [mapLookup_mapInsert, if_pos hf.2.symm]
      · exact absurd h (by simp)

theorem ikFold_preserve (ks : List Str) (r : AssocMap) (k v : Str)
    (h : mapLookup r k = some v) :
    mapLookup (ks.foldl ikStep r) k = some v := by
  induction ks generalizing r with
  | nil => exact h
  | cons a t ih =>
    rw [List.foldl_cons]
    apply ih
    unfold ikStep
    split
    · exact h
    · rw [mapLookup_mapInsert]
      by_cases ha : k = a
      · subst ha
        rename_i hs
        rw [h] at hs
        exact absurd rfl hs
      · rw [if_neg ha]; exact h

theorem ikFold_none (ks : List Str) (r : AssocMap) (k : Str)
    (h : mapLookup r k = none) :
    mapLookup (ks.foldl ikStep r) k = none ∨
      mapLookup (ks.foldl ikStep r) k = some unexpectedMsg := by
  induction ks generalizing r with
  | nil => exact Or.inl h
  | cons a t ih =>
    rw [List.foldl_cons]
    unfold ikStep
    split
    · exact ih r h
    · by_cases ha : k = a
      · subst ha
        refine Or.inr (ikFold_preserve t _ k unexpectedMsg ?_)
        rw [mapLookup_mapInsert, if_pos rfl]
      · apply ih
        rw [mapLookup_mapInsert, if_neg ha]
        exact h

theorem ikFold_mem (ks : List Str) :
    ∀ (r : AssocMap) (k : Str), k ∈ ks → mapLookup r k = none →
      mapLookup (ks.foldl ikStep r) k = some unexpectedMsg := by
  induction ks with
  | nil => intro r k hmem h; cases hmem
  | cons a t ih =>
    intro r k hmem h
    rw [List.foldl_cons]
    by_cases ha : a = k
    · subst ha
      unfold ikStep
      rw [h]
      simp only [Option.isSome_none, Bool.false_eq_true, if_false]
      refine ikFold_preserve t _ a unexpectedMsg ?_
      rw [mapLookup_mapInsert, if_pos rfl]
    · have hmem2 : k ∈ t := by
        cases hmem with
        | head => exact absurd rfl ha
        | tail _ hh => exact hh
      refine ih _ k hmem2 ?_
      unfold ikStep
      split
      · exact h
      · rw [mapLookup_mapInsert, if_neg (fun hh : k = a => ha hh.symm)]
        exact h

theorem processLine_preserve (r : AssocMap) (line k v : Str)
    (hte : typeEntryFor line k = none) (h : mapLookup r k = some v) :
    mapLookup (processLine r line) k = some v := by
  unfold processLine
  split
  · exact h
  · rename_i hcond
    unfold typeEntryFor at hte
    rw [if_neg hcond] at hte
    cases hp : parseFieldTypeError line with
    | none =>
      simp only
      exact ikFold_preserve _ r k v h
    | some m =>
      rw [hp] at hte
      simp only at hte ⊢
      split
      · rename_i hf
        split at hte
        · exact absurd hte (by simp)
        · rename_i hnot
          rw [mapLookup_mapInsert]
          by_cases hk : k = m.field
          · exact absurd ⟨hf, hk.symm⟩ hnot
          · rw [if_neg hk]; exact h
      · exact h

theorem processLine_noneOrUnexpected (r : AssocMap) (line k : Str)
    (hte : typeEntryFor line k = none)
    (h : mapLookup r k = none ∨ mapLookup r k = some unexpectedMsg) :
    mapLookup (processLine r line) k = none ∨
      mapLookup (processLine r line) k = some unexpectedMsg := by
  cases h with
  | inr h => exact Or.inr (processLine_preserve r line k unexpectedMsg hte h)
  | inl h =>
    unfold processLine
    split
    · exact Or.inl h
    · rename_i hcond
      unfold typeEntryFor at hte
      rw [if_neg hcond] at hte
      cases hp : parseFieldTypeError line with
      | none => exact ikFold_none _ r k h
      | some m =>
        rw [hp] at hte
        simp only at hte ⊢
        split
        · rename_i hf
          split at hte
          · exact absurd hte (by simp)
          · rename_i hnot
            rw [mapLookup_mapInsert]
            by_cases hk : k = m.field
            · exact absurd ⟨hf, hk.symm⟩ hnot
            · rw [if_neg hk]; exact Or.inl h
        · exact Or.inl h

theorem foldl_processLine_preserve (l : List Str) (r : AssocMap) (k v : Str)
    (hl : ∀ p ∈ l, typeEntryFor p k = none) (h : mapLookup r k = some v) :
    mapLookup (l.foldl processLine r) k = some v := by
  induction l generalizing r with
  | nil => exact h
  | cons p t ih =>
    rw [List.foldl_cons]
    exact ih _ (fun q hq => hl q (List.mem_cons_of_mem p hq))
      (processLine_preserve r p k v (hl p (List.mem_cons_self p t)) h)

theorem foldl_processLine_noneOrUnexpected (l : List Str) (r : AssocMap) (k : Str)
    (hl : ∀ p ∈ l, typeEntryFor p k = none)
    (h : mapLookup r k = none ∨ mapLookup r k = some unexpectedMsg) :
    mapLookup (l.foldl processLine r) k = none ∨
      mapLookup (l.foldl processLine r) k = some unexpectedMsg := by
  induction l generalizing r with
  | nil => exact h
  | cons p t ih =>
    rw [List.foldl_cons]
    exact ih _ (fun q hq => hl q (List.mem_cons_of_mem p hq))
      (processLine_noneOrUnexpected r p k (hl p (List.mem_cons_self p t)) h)

theorem lastTypeEntryIn_eq_none {l : List Str} {k : Str} :
    lastTypeEntryIn l k = none ↔ ∀ p ∈ l, typeEntryFor p k = none := by
  induction l with
  | nil => simp [lastTypeEntryIn]
  | cons p t ih =>
    unfold lastTypeEntryIn
    constructor
    · intro h q hq
      cases he : lastTypeEntryIn t k with
      | some m => rw [he] at h; exact absurd h (by simp)
      | none =>
        rw [he] at h
        simp only at h
        cases hq with
        | head => exact h
        | tail _ hh => exact ih.mp he q hh
    · intro h
      have ht : lastTypeEntryIn t k = none :=
        ih.mpr (fun q hq => h q (List.mem_cons_of_mem p hq))
      rw [ht]
      exact h p (List.mem_cons_self p t)

theorem foldl_processLine_last (l : List Str) (r : AssocMap) (k m : Str)
    (h : lastTypeEntryIn l k = some m) :
    mapLookup (l.foldl processLine r) k = some m := by
  induction l generalizing r with
  | nil => exact absurd h (by simp [lastTypeEntryIn])
  | cons p t ih =>
    rw [List.foldl_cons]
    unfold lastTypeEntryIn at h
    cases he : lastTypeEntryIn t k with
    | some m2 =>
      rw [he] at h
      simp only at h
      cases h
      exact ih _ he
    | none =>
      rw [he] at h
      simp only at h
      exact foldl_processLine_preserve t _ k m (lastTypeEntryIn_eq_none.mp he)
        (processLine_typeEntry r p k m h)

/-! ### Claim C1: type-mismatch lines of `parseStructuredErrors` -/

/-- Statement of claim C1 at one input: every trimmed line starting with
`*` on which `parseFieldTypeError` finds a (necessarily non-empty) field
name has its field bound, in the returned map, to the message built from
that line. -/
def C1At (s : Str) : Prop :=
  ∀ line ∈ linesOf s, goStartsWith line starStr = true →
    ∀ m : TypeMatch, parseFieldTypeError line = some m →
      mapLookup (parseStructuredErrors s) (m.field) = some (typeMsg m)

/-- Wrap a string in single quotes. -/
def quoteWrap (s : Str) : Str := sq :: (s ++ [sq])

/-- Build a mapstructure-style type-mismatch line. -/
def mkTypeLine (f e g2 : Str) : Str :=
  "* ".toList ++ quoteWrap f ++ " expected type ".toList ++ quoteWrap e ++
    ", got unconvertible type ".toList ++ quoteWrap g2

/-- First line of the refuting input: field `f`, expected `a`, got `b`. -/
def c1LineA : Str := mkTypeLine ("f".toList) ("a".toList) ("b".toList)

/-- Second line of the refuting input: field `f` again, expected `c`, got `d`. -/
def c1LineB : Str := mkTypeLine ("f".toList) ("c".toList) ("d".toList)

/-- The refuting input for claim C1: two type-mismatch lines for the same
field; the second overwrites the entry written for the first. -/
def c1Bad : Str := c1LineA ++ '\n' :: c1LineB

/-- Claim C1 is false as stated: in `c1Bad` the first line matches with
field `f` and message `expected a but got b`, but the returned map binds
`f` to `expected c but got d`, written by the later line. -/
theorem C1_counterexample : ¬ C1At c1Bad := by
  intro h
  have hm := h c1LineA (by decide) (by decide)
      ⟨"f".toList, "a".toList, "b".toList⟩ (by decide)
  revert hm
  decide

/-- Claim C1 amended: the binding described by the claim holds for each
qualifying line provided no later line produces a type-mismatch entry for
the same field (the last such line for a field determines its binding;
invalid-keys lines never overwrite it). -/
theorem C1_amended_last_type_line (s : Str) (l1 l2 : List Str) (line : Str) (m : TypeMatch)
    (hsplit : linesOf s = l1 ++ line :: l2)
    (hstar : goStartsWith line starStr = true)
    (hm : parseFieldTypeError line = some m)
    (hlast : ∀ p ∈ l2, typeEntryFor p (m.field) = none) :
    mapLookup (parseStructuredErrors s) (m.field) = some (typeMsg m) := by
  have hfield : m.field ≠ [] := parseFieldTypeError_field_ne hm
  have hne : line ≠ [] := by
    intro he
    rw [he] at hstar
    exact absurd hstar (by decide)
  have hte : typeEntryFor line (m.field) = some (typeMsg m) := by
    unfold typeEntryFor
    rw [if_neg (by
      intro hc
      cases hc with
      | inl hc => exact hne hc
      | inr hc => rw [hstar] at hc; exact absurd hc (by decide))]
    rw [hm]
    simp [hfield]
  rw [parseStructuredErrors_eq_foldl, hsplit, List.foldl_append, List.foldl_cons]
  exact foldl_processLine_preserve l2 _ (m.field) (typeMsg m) hlast
    (processLine_typeEntry _ line (m.field) (typeMsg m) hte)

/-- Concrete instance of the amended claim C1: a single type-mismatch line. -/
def c1WLine : Str := mkTypeLine ("w".toList) ("s".toList) ("t".toList)

/-- Witness for `C1_amended_last_type_line` at the input `c1WLine`. -/
theorem C1_amended_witness :
    linesOf c1WLine = [] ++ c1WLine :: [] ∧
    goStartsWith c1WLine starStr = true ∧
    parseFieldTypeError c1WLine = some ⟨"w".toList, "s".toList, "t".toList⟩ ∧
    (∀ p ∈ ([] : List Str), typeEntryFor p ("w".toList) = none) ∧
    mapLookup (parseStructuredErrors c1WLine) ("w".toList) =
      some (typeMsg ⟨"w".toList, "s".toList, "t".toList⟩) :=
  ⟨by decide, by decide, by decide, by decide,
   C1_amended_last_type_line c1WLine [] [] c1WLine ⟨"w".toList, "s".toList, "t".toList⟩
     (by decide) (by decide) (by decide) (by decide)⟩

/-! ### Claim C7: invalid-keys lines of `parseStructuredErrors` -/

/-- Statement of claim C7 at one input: every key parsed from a qualifying
invalid-keys line is bound to `unexpected` in the returned map, except that
an entry already produced for it by an earlier type-mismatch line (the last
such) is kept. -/
def C7At (s : Str) : Prop :=
  ∀ l1 line l2, linesOf s = l1 ++ line :: l2 →
    goStartsWith line starStr = true →
    (goIndex line invalidKeysPhrase).isSome = true →
    parseFieldTypeError line = none →
    ∀ k ∈ parseInvalidKeys line,
      mapLookup (parseStructuredErrors s) k =
        some ((lastTypeEntryIn l1 k).getD unexpectedMsg)

/-- First line of the C7 refuting input: an invalid-keys line for `f`. -/
def c7LineA : Str := "* ".toList ++ [sq, sq] ++ " has invalid keys: f".toList

/-- Second line of the C7 refuting input: a later type-mismatch line for `f`. -/
def c7LineB : Str := mkTypeLine ("f".toList) ("a".toList) ("b".toList)

/-- The refuting input for claim C7. -/
def c7Bad : Str := c7LineA ++ '\n' :: c7LineB

/-- Claim C7 is false as stated: in `c7Bad` the invalid-keys line parses the
key `f` with no earlier type-mismatch entry, so the claim requires the
binding `unexpected`; but the later type-mismatch line overwrites it with
`expected a but got b`. -/
theorem C7_counterexample : ¬ C7At c7Bad := by
  intro h
  have hm := h [] c7LineA [c7LineB] (by decide) (by decide) (by decide) (by decide)
      ("f".toList) (by decide)
  revert hm
  decide

/-- Claim C7 amended: the claimed bindings hold provided no line after the
invalid-keys line produces a type-mismatch entry for the key (a later
type-mismatch line overwrites the binding). -/
theorem C7_amended_invalid_keys (s : Str) (l1 l2 : List Str) (line k : Str)
    (hsplit : linesOf s = l1 ++ line :: l2)
    (hstar : goStartsWith line starStr = true)
    (hphrase : (goIndex line invalidKeysPhrase).isSome = true)
    (hpte : parseFieldTypeError line = none)
    (hk : k ∈ parseInvalidKeys line)
    (hafter : ∀ p ∈ l2, typeEntryFor p k = none) :
    mapLookup (parseStructuredErrors s) k =
      some ((lastTypeEntryIn l1 k).getD unexpectedMsg) := by
  have hne : line ≠ [] := by
    intro he
    rw [he] at hstar
    exact absurd hstar (by decide)
  have hcond : ¬ (line = [] ∨ goStartsWith line starStr = false) := by
    intro hc
    cases hc with
    | inl hc => exact hne hc
    | inr hc => rw [hstar] at hc; exact absurd hc (by decide)
  have hteline : typeEntryFor line k = none := by
    unfold typeEntryFor
    rw [if_neg hcond, hpte]
  rw [parseStructuredErrors_eq_foldl, hsplit, List.foldl_append, List.foldl_cons]
  cases he : lastTypeEntryIn l1 k with
  | some m =>
    rw [Option.getD_some]
    exact foldl_processLine_preserve l2 _ k m hafter
      (processLine_preserve _ line k m hteline (foldl_processLine_last l1 [] k m he))
  | none =>
    rw [Option.getD_none]
    have h1 := foldl_processLine_noneOrUnexpected l1 [] k
      (lastTypeEntryIn_eq_none.mp he) (Or.inl rfl)
    have h2 : mapLookup (processLine (l1.foldl processLine []) line) k = some unexpectedMsg := by
      unfold processLine
      rw [if_neg hcond, hpte]
      cases h1 with
      | inl h1 => exact ikFold_mem _ _ k hk h1
      | inr h1 => exact ikFold_preserve _ _ k unexpectedMsg h1
    exact foldl_processLine_preserve l2 _ k unexpectedMsg hafter h2

/-- Concrete instance of the amended claim C7: one invalid-keys line. -/
def c7WLine : Str := "* ".toList ++ [sq, sq] ++ " has invalid keys: gkey".toList

/-- Witness for `C7_amended_invalid_keys` at the input `c7WLine`. -/
theorem C7_amended_witness :
    linesOf c7WLine = [] ++ c7WLine :: [] ∧
    goStartsWith c7WLine starStr = true ∧
    (goIndex c7WLine invalidKeysPhrase).isSome = true ∧
    parseFieldTypeError c7WLine = none ∧
    ("gkey".toList ∈ parseInvalidKeys c7WLine) ∧
    mapLookup (parseStructuredErrors c7WLine) ("gkey".toList) =
      some ((lastTypeEntryIn [] ("gkey".toList)).getD unexpectedMsg) :=
  ⟨by decide, by decide, by decide, by decide, by decide,
   C7_amended_invalid_keys c7WLine [] [] c7WLine ("gkey".toList)
     (by decide) (by decide) (by decide) (by decide) (by decide) (by decide)⟩

/-! ### Claim C2: `ToFieldErrorsWith` on `validator.ValidationErrors` -/

/-- The last field error of `l` whose key (`Field()`, or `StructField()`
when that is empty) equals `k`: later errors overwrite earlier ones. -/
def lastFieldErrorFor (l : List FieldError) (k : Str) : Option FieldError :=
  match l with
  | [] => none
  | fe :: t =>
    match lastFieldErrorFor t k with
    | some x => some x
    | none => if feKey fe = k then some fe else none

theorem hve_lookup (g : GlobalState) (fn : Option MsgFn) (l : List FieldError) :
    ∀ (res : AssocMap) (k : Str),
      mapLookup (handleValidationErrors g l fn res) k =
        match lastFieldErrorFor l k with
        | some fe => some (humanMessageWith g fe fn)
        | none => mapLookup res k := by
  induction l with
  | nil => intro res k; rfl
  | cons fe t ih =>
    intro res k
    have hstep : handleValidationErrors g (fe :: t) fn res =
        handleValidationErrors g t fn (hveStep g fn res fe) := rfl
    rw [hstep, ih]
    cases he : lastFieldErrorFor t k with
    | some x =>
      have hl : lastFieldErrorFor (fe :: t) k = some x := by
        unfold lastFieldErrorFor
        rw [he]
      rw [hl]
    | none =>
      have hl : lastFieldErrorFor (fe :: t) k =
          if feKey fe = k then some fe else none := by
        unfold lastFieldErrorFor
        rw [he]
      rw [hl]
      unfold hveStep
      rw [mapLookup_mapInsert]
      by_cases hk : k = feKey fe
      · rw [if_pos hk, if_pos hk.symm]
      · rw [if_neg hk, if_neg (fun hh : feKey fe = k => hk hh.symm)]

/-- Claim C2: on a `validator.ValidationErrors` value, `ToFieldErrorsWith`
returns a (non-nil) map with pairwise distinct keys whose binding at any
key `k` is the message `humanMessageWith fe fn` of the last listed field
error whose key (`fe.Field()`, or `fe.StructField()` when that is empty)
is `k`, and which binds nothing else. -/
theorem C2_validation_errors_map (g : GlobalState) (l : List FieldError) (fn : Option MsgFn) :
    ∃ m : AssocMap,
      ToFieldErrorsWith g (some (GoError.validationErrors l)) fn = some m ∧
      (m.map Prod.fst).Nodup ∧
      ∀ k : Str, mapLookup m k =
        (lastFieldErrorFor l k).map (fun fe => humanMessageWith g fe fn) := by
  refine ⟨handleValidationErrors g l fn [], rfl, ?_, ?_⟩
  · have H : ∀ (l2 : List FieldError) (res : AssocMap), (res.map Prod.fst).Nodup →
        ((handleValidationErrors g l2 fn res).map Prod.fst).Nodup := by
      intro l2
      induction l2 with
      | nil => intro res h; exact h
      | cons fe t ih =>
        intro res h
        exact ih _ (nodupKeys_mapInsert res (feKey fe) (humanMessageWith g fe fn) h)
    exact H l [] (by simp)
  · intro k
    rw [hve_lookup g fn l [] k]
    cases lastFieldErrorFor l k <;> rfl

/-! ### Claim C3: the message function round-trips through the context -/

/-- Whether any entry of the context chain was attached under the package's
`ctxKeyMsgFunc{}` key (only `WithMessageFunc` uses that key). -/
def hasMsgFuncKey : Context → Bool
  | Context.background => false
  | Context.withValue k _ p => decide (k = CtxKey.msgFuncKey) || hasMsgFuncKey p

/-- Claim C3: `MessageFuncFromContext` returns exactly the function attached
by `WithMessageFunc` on the derived context, and returns `none` on any
context to which no message function was attached. -/
theorem C3_message_func_context_roundtrip :
    (∀ (c : Context) (fn : Option MsgFn),
        MessageFuncFromContext (some (WithMessageFunc c fn)) = fn) ∧
    (∀ c : Context, hasMsgFuncKey c = false → MessageFuncFromContext (some c) = none) := by
  constructor
  · intro c fn
    rfl
  · intro c
    induction c with
    | background => intro h; rfl
    | withValue k v p ih =>
      intro h
      unfold hasMsgFuncKey at h
      simp only [Bool.or_eq_false_iff, decide_eq_false_iff_not] at h
      have hv : ctxValue (Context.withValue k v p) CtxKey.msgFuncKey =
          ctxValue p CtxKey.msgFuncKey := by
        simp only [ctxValue]
        rw [if_neg h.1]
      have hp := ih h.2
      simp only [MessageFuncFromContext] at hp ⊢
      rw [hv]
      exact hp

/-- A concrete message function for witnesses. -/
def fnW : MsgFn := fun _ => "w-msg".toList

/-- Witness for `C3_message_func_context_roundtrip` at concrete contexts. -/
theorem C3_roundtrip_witness :
    MessageFuncFromContext (some (WithMessageFunc Context.background (some fnW))) = some fnW ∧
    hasMsgFuncKey Context.background = false ∧
    MessageFuncFromContext (some Context.background) = none :=
  ⟨C3_message_func_context_roundtrip.1 Context.background (some fnW),
   rfl,
   C3_message_func_context_roundtrip.2 Context.background rfl⟩

/-! ### Claim C4: precedence and non-emptiness of human messages -/

theorem ite_ne_nil {c : Prop} [Decidable c] {a b : Str} (ha : a ≠ []) (hb : b ≠ []) :
    (if c then a else b) ≠ [] := by
  split
  · exact ha
  · exact hb

set_option maxHeartbeats 1600000 in
theorem defaultMessage_ne_nil (fe : FieldError) : defaultMessage fe ≠ [] := by
  unfold defaultMessage
  repeat' apply ite_ne_nil
  all_goals first
    | decide
    | exact fun h => absurd (List.append_eq_nil.mp h).1 (by decide)

theorem globalFallback_ne_nil (g : GlobalState) (fe : FieldError) :
    globalFallback g fe ≠ [] := by
  cases g with
  | none => exact defaultMessage_ne_nil fe
  | some g0 =>
    show (if g0 fe ≠ [] then g0 fe else defaultMessage fe) ≠ []
    by_cases hg : g0 fe = []
    · rw [if_neg (not_not_intro hg)]
      exact defaultMessage_ne_nil fe
    · rw [if_pos hg]
      exact hg

/-- Claim C4: `humanMessageWith` prefers the per-call function when it
yields a non-empty message, then the global one when it yields a non-empty
message, then `defaultMessage`; `defaultMessage` is non-empty on every tag
(unrecognised tags map to `failed <tag>`); hence `humanMessageWith` never
returns the empty string. -/
theorem C4_human_message_precedence :
    (∀ (g : GlobalState) (fe : FieldError) (f : MsgFn), f fe ≠ [] →
        humanMessageWith g fe (some f) = f fe) ∧
    (∀ (g0 : MsgFn) (fe : FieldError) (fn : Option MsgFn),
        (∀ f, fn = some f → f fe = []) → g0 fe ≠ [] →
        humanMessageWith (some g0) fe fn = g0 fe) ∧
    (∀ (g : GlobalState) (fe : FieldError) (fn : Option MsgFn),
        (∀ f, fn = some f → f fe = []) → (∀ g0, g = some g0 → g0 fe = []) →
        humanMessageWith g fe fn = defaultMessage fe) ∧
    (∀ fe : FieldError, defaultMessage fe ≠ []) ∧
    (∀ fe : FieldError, (∀ t ∈ knownTags, fe.tag ≠ t) →
        defaultMessage fe = "failed ".toList ++ fe.tag) ∧
    (∀ (g : GlobalState) (fe : FieldError) (fn : Option MsgFn),
        humanMessageWith g fe fn ≠ []) := by
  have hfb : ∀ (g : GlobalState) (fe : FieldError),
      (∀ g0, g = some g0 → g0 fe = []) → globalFallback g fe = defaultMessage fe := by
    intro g fe hg
    cases g with
    | none => rfl
    | some g0 =>
      show (if g0 fe ≠ [] then g0 fe else defaultMessage fe) = defaultMessage fe
      rw [if_neg (not_not_intro (hg g0 rfl))]
  refine ⟨?_, ?_, ?_, defaultMessage_ne_nil, ?_, ?_⟩
  · intro g fe f hf
    show (if f fe ≠ [] then f fe else globalFallback g fe) = f fe
    rw [if_pos hf]
  · intro g0 fe fn hfn hg
    have hglob : globalFallback (some g0) fe = g0 fe := by
      show (if g0 fe ≠ [] then g0 fe else defaultMessage fe) = g0 fe
      rw [if_pos hg]
    cases fn with
    | none => exact hglob
    | some f =>
      show (if f fe ≠ [] then f fe else globalFallback (some g0) fe) = g0 fe
      rw [if_neg (not_not_intro (hfn f rfl))]
      exact hglob
  · intro g fe fn hfn hg
    cases fn with
    | none => exact hfb g fe hg
    | some f =>
      show (if f fe ≠ [] then f fe else globalFallback g fe) = defaultMessage fe
      rw [if_neg (not_not_intro (hfn f rfl))]
      exact hfb g fe hg
  · intro fe hk
    unfold defaultMessage
    rw [if_neg (hk ("required".toList) (by decide)),
      if_neg (hk ("min".toList) (by decide)),
      if_neg (hk ("max".toList) (by decide)),
      if_neg (hk ("len".toList) (by decide)),
      if_neg (hk ("email".toList) (by decide)),
      if_neg (hk ("oneof".toList) (by decide)),
      if_neg (hk ("gte".toList) (by decide)),
      if_neg (hk ("lte".toList) (by decide)),
      if_neg (hk ("url".toList) (by decide)),
      if_neg (hk ("uuid".toList) (by decide)),
      if_neg (hk ("alpha".toList) (by decide)),
      if_neg (hk ("alphanum".toList) (by decide)),
      if_neg (hk ("numeric".toList) (by decide)),
      if_neg (hk ("contains".toList) (by decide)),
      if_neg (hk ("excludes".toList) (by decide)),
      if_neg (hk ("startswith".toList) (by decide)),
      if_neg (hk ("endswith".toList) (by decide)),
      if_neg (hk ("base64".toList) (by decide)),
      if_neg (hk ("json".toList) (by decide)),
      if_neg (hk ("ip".toList) (by decide)),
      if_neg (hk ("cidr".toList) (by decide)),
      if_neg (hk ("ascii".toList) (by decide)),
      if_neg (hk ("printascii".toList) (by decide)),
      if_neg (hk ("multibyte".toList) (by decide)),
      if_neg (hk ("iscolor".toList) (by decide)),
      if_neg (hk ("isbn".toList) (by decide)),
      if_neg (hk ("isbn10".toList) (by decide)),
      if_neg (hk ("isbn13".toList) (by decide))]
  · intro g fe fn
    have hgf := globalFallback_ne_nil g fe
    cases fn with
    | none => exact hgf
    | some f =>
      show (if f fe ≠ [] then f fe else globalFallback g fe) ≠ []
      by_cases hf : f fe = []
      · rw [if_neg (not_not_intro hf)]
        exact hgf
      · rw [if_pos hf]
        exact hf

/-- A field error used by witnesses: an unrecognised tag. -/
def feW : FieldError :=
  { field := "age".toList, structField := "Age".toList,
    tag := "customtag".toList, param := [] }

/-- Witness for `C4_human_message_precedence` at concrete inputs. -/
theorem C4_precedence_witness :
    (fnW feW ≠ [] ∧ humanMessageWith none feW (some fnW) = fnW feW) ∧
    ((∀ t ∈ knownTags, feW.tag ≠ t) ∧
      defaultMessage feW = "failed ".toList ++ feW.tag) ∧
    humanMessageWith none feW none ≠ [] :=
  ⟨⟨by decide, C4_human_message_precedence.1 none feW fnW (by decide)⟩,
   ⟨by decide, C4_human_message_precedence.2.2.2.2.1 feW (by decide)⟩,
   C4_human_message_precedence.2.2.2.2.2 none feW none⟩

/-! ### Claim C8: nil inputs are safe -/

/-- Claim C8: a nil error yields the empty non-nil map through all three
public conversions, and `MessageFuncFromContext` of a nil context is nil. -/
theorem C8_nil_safety :
    (∀ (g : GlobalState) (fn : Option MsgFn), ToFieldErrorsWith g none fn = some []) ∧
    (∀ g : GlobalState, ToFieldErrors g none = some []) ∧
    (∀ (g : GlobalState) (c : Option Context), ToFieldErrorsWithContext g c none = some []) ∧
    MessageFuncFromContext none = none :=
  ⟨fun _ _ => rfl, fun _ => rfl, fun _ _ => rfl, rfl⟩

/-! ### Claim C9: the `_error` fallback -/

/-- Claim C9: a non-nil error of unrecognised dynamic type whose message
yields no structured entries maps to exactly `{_error: message}`. -/
theorem C9_fallback_error_entry (g : GlobalState) (fn : Option MsgFn) (msg : Str)
    (h : parseStructuredErrors msg = []) :
    ToFieldErrorsWith g (some (GoError.generic msg)) fn = some [(errorKey, msg)] := by
  have hh : handleStructuredErrorMessage msg [] = (false, []) := by
    unfold handleStructuredErrorMessage
    rw [h]
    rfl
  simp only [ToFieldErrorsWith]
  rw [hh]
  rfl

/-- Witness for `C9_fallback_error_entry` at the message `boom`. -/
theorem C9_fallback_witness :
    parseStructuredErrors ("boom".toList) = [] ∧
    ToFieldErrorsWith none (some (GoError.generic ("boom".toList))) none =
      some [(errorKey, "boom".toList)] :=
  ⟨by decide, C9_fallback_error_entry none none ("boom".toList) (by decide)⟩

/-! ### Claim C5: locale resolution of the `ValidatorI18n` middleware -/

/-- The locale as claim C5 words it: the lowercased `LocaleFromCtx` result
when the callback is configured and non-empty; otherwise the lowercased
`:lang` parameter when non-empty; otherwise the (normalised) default. -/
def c5SpecLocale (cfg : I18nConfig) (c : FlashCtx) : Str :=
  match cfg.LocaleFromCtx with
  | some lf =>
    if lf c ≠ [] then goToLower (lf c)
    else if c.paramLang ≠ [] then goToLower c.paramLang
    else normDefaultLocale cfg.DefaultLocale
  | none =>
    if c.paramLang ≠ [] then goToLower c.paramLang
    else normDefaultLocale cfg.DefaultLocale

/-- The message-function lookup with default-locale fallback (validator_i18n.go
lines 60-63). -/
def resolveMsgFunc (F : Str → Option MsgFn) (dflt locale : Str) : Option MsgFn :=
  let mf := F locale
  if mf.isNone ∧ locale ≠ dflt then F dflt else mf

/-- Attach a resolved message function to the request context, or leave the
context unchanged when it is nil (validator_i18n.go lines 64-69). -/
def attachCtx (c : FlashCtx) (mf : Option MsgFn) : Context :=
  match mf with
  | some f => WithMessageFunc c.reqCtx (some f)
  | none => c.reqCtx

/-- Statement of claim C5 at a configuration and a request: with
`MessageFuncFor` configured, the middleware yields the context predicted
from the claim's locale resolution. -/
def C5At (cfg : I18nConfig) (c : FlashCtx) : Prop :=
  ∀ F, cfg.MessageFuncFor = some F →
    ValidatorI18nRequestContext cfg c =
      attachCtx c (resolveMsgFunc F (normDefaultLocale cfg.DefaultLocale) (c5SpecLocale cfg c))

/-- A concrete message function returning `x`. -/
def fX : MsgFn := fun _ => "x".toList

/-- A `MessageFuncFor` that only knows the locale `es`. -/
def c5FBad : Str → Option MsgFn := fun l => if l = "es".toList then some fX else none

/-- Refuting configuration for claim C5: `LocaleFromCtx` is configured but
returns the empty string, while the `:lang` parameter is `es`. -/
def c5CfgBad : I18nConfig :=
  { DefaultLocale := "en".toList, LocaleFromCtx := some (fun _ => []),
    MessageFuncFor := some c5FBad, SetGlobal := false }

/-- Refuting request for claim C5. -/
def c5CtxBad : FlashCtx := { paramLang := "es".toList, reqCtx := Context.background }

/-- Claim C5 is false as stated: when `LocaleFromCtx` is configured but
returns the empty string, the code resolves the locale to `DefaultLocale`
without consulting the `:lang` parameter (here attaching nothing), while
the claim's resolution falls through to the parameter `es` (attaching the
`es` function). -/
theorem C5_counterexample : ¬ C5At c5CfgBad c5CtxBad := by
  intro h
  have h2 : Context.background =
      Context.withValue CtxKey.msgFuncKey (CtxVal.msgFuncVal (some fX)) Context.background :=
    h c5FBad rfl
  exact Context.noConfusion h2

/-- The locale as the code resolves it: the `:lang` parameter is consulted
only when `LocaleFromCtx` is not configured; a configured callback that
returns the empty string leaves the locale at the (normalised) default. -/
def c5AmendedLocale (cfg : I18nConfig) (c : FlashCtx) : Str :=
  match cfg.LocaleFromCtx with
  | some lf => if lf c ≠ [] then goToLower (lf c) else normDefaultLocale cfg.DefaultLocale
  | none => if c.paramLang ≠ [] then goToLower c.paramLang else normDefaultLocale cfg.DefaultLocale

/-- Claim C5 amended: with `MessageFuncFor` configured, the middleware
attaches exactly the function resolved from the amended locale (falling
back to the default locale's function when the lookup is nil and the locale
differs, and attaching nothing when the result is nil). -/
theorem C5_amended_locale_resolution (cfg : I18nConfig) (c : FlashCtx)
    (F : Str → Option MsgFn) (h : cfg.MessageFuncFor = some F) :
    ValidatorI18nRequestContext cfg c =
      attachCtx c (resolveMsgFunc F (normDefaultLocale cfg.DefaultLocale)
        (c5AmendedLocale cfg c)) := by
  obtain ⟨d, lfc, mff, sg⟩ := cfg
  have h2 : mff = some F := h
  subst h2
  cases lfc <;> rfl

/-- A `MessageFuncFor` knowing no locale. -/
def c5FW : Str → Option MsgFn := fun l => none

/-- Witness configuration for the amended claim C5 (empty default locale). -/
def c5CfgW : I18nConfig :=
  { DefaultLocale := [], LocaleFromCtx := none, MessageFuncFor := some c5FW,
    SetGlobal := false }

/-- Witness request for the amended claim C5. -/
def c5CtxW : FlashCtx := { paramLang := [], reqCtx := Context.background }

/-- Witness for `C5_amended_locale_resolution` at concrete inputs. -/
theorem C5_amended_witness :
    c5CfgW.MessageFuncFor = some c5FW ∧
    ValidatorI18nRequestContext c5CfgW c5CtxW =
      attachCtx c5CtxW (resolveMsgFunc c5FW (normDefaultLocale c5CfgW.DefaultLocale)
        (c5AmendedLocale c5CfgW c5CtxW)) :=
  ⟨rfl, C5_amended_locale_resolution c5CfgW c5CtxW c5FW rfl⟩

/-! ### Claim C6: the conversions never touch the package state -/

/-- Claim C6: the three conversions return the package state unchanged; the
only state change is `SetMessageFunc`; the middleware constructor performs
it exactly when `SetGlobal` is set and the default locale's function is
non-nil, and the per-request handler never does. -/
theorem C6_global_state_frame :
    (∀ (g : GlobalState) (err : Option GoError) (fn : Option MsgFn),
        (ToFieldErrorsWithS g err fn).2 = g) ∧
    (∀ (g : GlobalState) (err : Option GoError), (ToFieldErrorsS g err).2 = g) ∧
    (∀ (g : GlobalState) (c : Option Context) (err : Option GoError),
        (ToFieldErrorsWithContextS g c err).2 = g) ∧
    (∀ (g : GlobalState) (fn : Option MsgFn), SetMessageFuncS g fn = fn) ∧
    (∀ (g : GlobalState) (cfg : I18nConfig) (F : Str → Option MsgFn) (mf : MsgFn),
        cfg.MessageFuncFor = some F → cfg.SetGlobal = true →
        F (normDefaultLocale cfg.DefaultLocale) = some mf →
        ValidatorI18nSetupState g cfg = some mf) ∧
    (∀ (g : GlobalState) (cfg : I18nConfig), cfg.MessageFuncFor = none →
        ValidatorI18nSetupState g cfg = g) ∧
    (∀ (g : GlobalState) (cfg : I18nConfig), cfg.SetGlobal = false →
        ValidatorI18nSetupState g cfg = g) ∧
    (∀ (g : GlobalState) (cfg : I18nConfig) (F : Str → Option MsgFn),
        cfg.MessageFuncFor = some F → F (normDefaultLocale cfg.DefaultLocale) = none →
        ValidatorI18nSetupState g cfg = g) ∧
    (∀ (g : GlobalState) (cfg : I18nConfig) (c : FlashCtx),
        ValidatorI18nHandlerState g cfg c = g) := by
  refine ⟨fun _ _ _ => rfl, fun _ _ => rfl, fun _ _ _ => rfl, fun _ _ => rfl,
    ?_, ?_, ?_, ?_, fun _ _ _ => rfl⟩
  · intro g cfg F mf h1 h2 h3
    simp only [ValidatorI18nSetupState, h1, h2, h3]
    rfl
  · intro g cfg h
    simp only [ValidatorI18nSetupState, h]
  · intro g cfg h
    unfold ValidatorI18nSetupState
    cases hm : cfg.MessageFuncFor with
    | none => rfl
    | some F =>
      rw [h]
      rfl
  · intro g cfg F h1 h3
    simp only [ValidatorI18nSetupState, h1, h3]
    rw [ite_self]

/-- Witness `MessageFuncFor` for claim C6. -/
def c6F : Str → Option MsgFn := fun l => some fnW

/-- Witness configuration for claim C6: `SetGlobal` set. -/
def c6Cfg : I18nConfig :=
  { DefaultLocale := "en".toList, LocaleFromCtx := none, MessageFuncFor := some c6F,
    SetGlobal := true }

/-- Witness for `C6_global_state_frame` at concrete inputs. -/
theorem C6_frame_witness :
    c6Cfg.MessageFuncFor = some c6F ∧
    c6Cfg.SetGlobal = true ∧
    c6F (normDefaultLocale c6Cfg.DefaultLocale) = some fnW ∧
    ValidatorI18nSetupState none c6Cfg = some fnW ∧
    (ToFieldErrorsWithS none none none).2 = none :=
  ⟨rfl, rfl, rfl,
   C6_global_state_frame.2.2.2.2.1 none c6Cfg c6F fnW rfl rfl rfl,
   C6_global_state_frame.1 none none none⟩

/-! ### Claim C10: keys produced from `ctx.FieldErrors` -/

theorem normalizeFieldKey_sound (s : Str) (h : normalizeFieldKey s ≠ []) :
    (normalizeFieldKey s).all allowedKeyChar = true := by
  simp only [normalizeFieldKey] at h ⊢
  split_ifs at h ⊢ with h1 h2 h3 h4
  · exact absurd rfl h
  · exact absurd rfl h
  · exact absurd rfl h
  · exact h4
  · exact absurd rfl h

theorem normalizeFieldKey_drop (s : Str)
    (h : s = [] ∨ containsAnyOf s crlfStr = true ∨
      (trimSpace s).all allowedKeyChar = false) :
    normalizeFieldKey s = [] := by
  simp only [normalizeFieldKey]
  split_ifs with h1 h2 h3 h4
  · rfl
  · rfl
  · rfl
  · rcases h with h | h | h
    · exact absurd h h1
    · exact absurd h h2
    · rw [h4] at h
      exact Bool.noConfusion h
  · rfl

theorem ctxItemsMap_keys (items : List CtxFieldError) :
    ∀ (res : AssocMap) (k : Str), (mapLookup (ctxItemsMap items res) k).isSome = true →
      (mapLookup res k).isSome = true ∨ (k ≠ [] ∧ k.all allowedKeyChar = true) := by
  induction items with
  | nil => intro res k h; exact Or.inl h
  | cons e t ih =>
    intro res k h
    cases ih (ctxItemStep res e) k h with
    | inr hr => exact Or.inr hr
    | inl hl =>
      simp only [ctxItemStep] at hl
      split at hl
      · exact Or.inl hl
      · rename_i hne
        rw [mapLookup_mapInsert] at hl
        by_cases hk : k = normalizeFieldKey e.field
        · refine Or.inr ⟨?_, ?_⟩
          · rw [hk]; exact hne
          · rw [hk]; exact normalizeFieldKey_sound e.field hne
        · rw [if_neg hk] at hl
          exact Or.inl hl

theorem mergeFold_preserve (extras : List (Str × Str)) :
    ∀ (r : AssocMap) (k v : Str), mapLookup r k = some v →
      mapLookup (extras.foldl mergeStep r) k = some v := by
  induction extras with
  | nil => intro r k v h; exact h
  | cons kv t ih =>
    intro r k v h
    rw [List.foldl_cons]
    refine ih _ k v ?_
    unfold mergeStep
    split
    · exact h
    · rename_i hs
      rw [mapLookup_mapInsert]
      by_cases hk : k = kv.1
      · exfalso
        apply hs
        rw [← hk, h]
        rfl
      · rw [if_neg hk]
        exact h

/-- Claim C10: on a `ctx.FieldErrors` value the conversion returns the map
of `handleCtxFieldErrors`; every key mapped from the listed field errors is
a non-empty token over letters, digits, `.`, `-`, `_`; field names that are
empty, contain CR or LF, or whose trimmed form holds any other rune are
dropped; and the merge of keys parsed from the aggregated message never
overwrites an entry mapped from a listed field error. -/
theorem C10_ctx_field_errors_keys (gl : GlobalState) (fn : Option MsgFn)
    (fe : CtxFieldErrors) :
    ToFieldErrorsWith gl (some (GoError.ctxFieldErrors fe)) fn =
      some (handleCtxFieldErrors fe []) ∧
    (∀ k : Str, (mapLookup (ctxItemsMap fe.items []) k).isSome = true →
        k ≠ [] ∧ k.all allowedKeyChar = true) ∧
    (∀ s : Str, (s = [] ∨ containsAnyOf s crlfStr = true ∨
        (trimSpace s).all allowedKeyChar = false) → normalizeFieldKey s = []) ∧
    (∀ k v : Str, mapLookup (ctxItemsMap fe.items []) k = some v →
        mapLookup (handleCtxFieldErrors fe []) k = some v) := by
  refine ⟨rfl, ?_, fun s h => normalizeFieldKey_drop s h, ?_⟩
  · intro k h
    cases ctxItemsMap_keys fe.items [] k h with
    | inl hl => simp [mapLookup] at hl
    | inr hr => exact hr
  · intro k v h
    exact mergeFold_preserve _ _ k v h

/-- Witness `ctx.FieldErrors` value for claim C10. -/
def c10Fe : CtxFieldErrors :=
  { items := [{ field := "name".toList, message := "bad".toList }], errMsg := [] }

/-- Witness for `C10_ctx_field_errors_keys` at a concrete value. -/
theorem C10_ctx_keys_witness :
    (mapLookup (ctxItemsMap c10Fe.items []) ("name".toList)).isSome = true ∧
    ("name".toList ≠ [] ∧ ("name".toList).all allowedKeyChar = true) ∧
    mapLookup (ctxItemsMap c10Fe.items []) ("name".toList) = some ("bad".toList) ∧
    mapLookup (handleCtxFieldErrors c10Fe []) ("name".toList) = some ("bad".toList) :=
  ⟨by decide,
   (C10_ctx_field_errors_keys none none c10Fe).2.1 ("name".toList) (by decide),
   by decide,
   (C10_ctx_field_errors_keys none none c10Fe).2.2.2 ("name".toList) ("bad".toList)
     (by decide)⟩

end GoValidator
